import Mathlib

/-!
Verification of the core behaviors of the LAN transfer application: the
sender-side file streaming loop with backpressure and cooperative
cancellation (`sendSingleFile`), the serial multi-file send queue
(`sendFiles`), the classification of a send attempt's outcome, the chat
auto-reconnect handler, the Android storage plugin's writer-handle
registry (`StoragePlugin.kt`), and the clipboard anti-echo protocol.

Each definition is a shallow embedding of the corresponding source
function; environments (`SessEnv`, `QueueEnv`, failure outcomes) stand
for the parts of the world the code reacts to: the cancel flag, socket
drain, per-file transfer results, and storage-layer failures.
-/

namespace LanTransfer

/-! ## Sender session machine (`sendSingleFile`, `src/App.tsx` lines 412-514)

One WebSocket send session for one file.  The machine follows the code's
control flow: on open it sends the metadata message, then loops: check
the cancel flag, read a chunk, wait in the backpressure loop while the
buffered amount exceeds the high-water mark (checking the cancel flag
after each 50 ms sleep), send the chunk.  The environment provides the
cancel flag's value and the number of buffered bytes the socket drains
before each step. -/

/-- High-water mark for the WebSocket send buffer: 4 MB (`HIGH_WATER_MARK`). -/
def HWM : Nat := 4 * 1024 * 1024

/-- A file to send: display name, declared byte size, and the sizes of the
chunks its stream reader yields, in order. -/
structure SendFile where
  name : String
  size : Nat
  chunks : List Nat
deriving DecidableEq

/-- Environment of one send session: the cancel flag's value at each step and
the number of buffered bytes drained by the socket before each step. -/
structure SessEnv where
  cancel : Nat → Bool
  drain : Nat → Nat

/-- Control position inside `sendSingleFile`'s `onopen` handler. -/
inductive SessPhase where
  | start
  | loopTop (rest : List Nat)
  | bpCheck (pending : Nat) (rest : List Nat)
  | bpWait (pending : Nat) (rest : List Nat)
  | done (cancelled : Bool)
deriving DecidableEq

/-- State of one send session: control position and buffered byte count. -/
structure SessState where
  phase : SessPhase
  buffered : Nat
deriving DecidableEq

/-- Observable actions of the sender during one session. -/
inductive SEvent where
  | metadata (name : String) (size index total : Nat)
  | readChunk (bytes : Nat)
  | sendData (bytes : Nat)
  | sleepMs (ms : Nat)
  | cancelObserved
  | close
deriving DecidableEq

/-- One atomic step of the send session.  The socket first drains
`env.drain k` bytes; then the sender acts according to its control
position, exactly as in `sendSingleFile`:
`start` sends the metadata text frame; `loopTop` checks the cancel flag
and then reads the next chunk (closing the socket normally when the
reader is done); `bpCheck` compares the buffered amount against the
high-water mark, sleeping 50 ms when it is exceeded and otherwise
sending the pending chunk; `bpWait` re-checks the cancel flag after the
sleep. -/
def sessStep (env : SessEnv) (f : SendFile) (idx total k : Nat) (s : SessState) :
    SessState × List SEvent :=
  let buf := s.buffered - env.drain k
  match s.phase with
  | .start => (⟨.loopTop f.chunks, buf⟩, [.metadata f.name f.size idx total])
  | .loopTop rest =>
      if env.cancel k then (⟨.done true, buf⟩, [.cancelObserved, .close])
      else
        match rest with
        | [] => (⟨.done false, buf⟩, [.close])
        | c :: rest' => (⟨.bpCheck c rest', buf⟩, [.readChunk c])
  | .bpCheck c rest =>
      if HWM < buf then (⟨.bpWait c rest, buf⟩, [.sleepMs 50])
      else (⟨.loopTop rest, buf + c⟩, [.sendData c])
  | .bpWait c rest =>
      if env.cancel k then (⟨.done true, buf⟩, [.cancelObserved, .close])
      else (⟨.bpCheck c rest, buf⟩, [])
  | .done b => (⟨.done b, buf⟩, [])

/-- The session state after `k` steps, starting at `onopen` with an empty
send buffer. -/
def sessState (env : SessEnv) (f : SendFile) (idx total : Nat) : Nat → SessState
  | 0 => ⟨.start, 0⟩
  | k + 1 => (sessStep env f idx total k (sessState env f idx total k)).1

/-- The events the sender emits during step `k`. -/
def sessEvents (env : SessEnv) (f : SendFile) (idx total k : Nat) : List SEvent :=
  (sessStep env f idx total k (sessState env f idx total k)).2

/-- The buffered byte count the sender observes at step `k` (after the
socket's drain for that step). -/
def sessObsBuf (env : SessEnv) (f : SendFile) (idx total k : Nat) : Nat :=
  (sessState env f idx total k).buffered - env.drain k

/-- True for events that are neither a chunk read nor a data send. -/
def noReadSendB : SEvent → Bool
  | .readChunk _ => false
  | .sendData _ => false
  | _ => true

/-- Claim C1 as stated: whenever the observable buffered byte count exceeds
the high-water mark, the sender sends no file data and reads no chunk from
the file source at that instant. -/
def claimC1Stated : Prop :=
  ∀ (env : SessEnv) (f : SendFile) (idx total k : Nat),
    HWM < sessObsBuf env f idx total k →
    (sessEvents env f idx total k).all noReadSendB = true

/-! ## Outcome classification of one send attempt (`src/App.tsx` 498-513, 374-391) -/

/-- Resolution of the `sendSingleFile` promise. -/
inductive SessResult where
  | resolved
  | rejected (msg : String)
deriving DecidableEq

/-- How the `onclose` handler settles the promise: a rejection that happened
earlier (cancel detection, an exception while streaming, or `onerror`)
stands; otherwise close code 4001 rejects with `Cancelled by receiver` and
any other close resolves (success). -/
def sessionOutcome (priorError : Option String) (closeCode : Nat) : SessResult :=
  match priorError with
  | some m => .rejected m
  | none => if closeCode = 4001 then .rejected "Cancelled by receiver" else .resolved

/-- The message the `onerror` handler rejects with. -/
def socketErrorMsg : String := "Connection failed"

/-- Whether the first list is a prefix of the second (character lists). -/
def leadsWith : List Char → List Char → Bool
  | [], _ => true
  | _ :: _, [] => false
  | a :: pa, b :: pb => a == b && leadsWith pa pb

/-- Whether `pat` occurs as a contiguous sublist of the second argument. -/
def containsSub (pat : List Char) : List Char → Bool
  | [] => pat.isEmpty
  | a :: t => leadsWith pat (a :: t) || containsSub pat t

/-- JavaScript's `String.prototype.includes`, used by `handleAndroidSend` to
classify backend error messages. -/
def includesStr (s pat : String) : Bool := containsSub pat.toList s.toList

/-- What `handleAndroidSend`'s catch branch shows the operator. -/
inductive AndroidReport where
  | idleSilent
  | cancelledByReceiverAlert
  | failAlert
deriving DecidableEq

/-- Classification of a backend send error on the Android path
(`handleAndroidSend`): `Cancelled by user` resets to idle silently;
otherwise `Cancelled by receiver`, `Broken pipe` or `Connection reset`
shows the cancelled-by-receiver alert; anything else shows the generic
failure alert. -/
def androidReport (errMsg : String) : AndroidReport :=
  if includesStr errMsg "Cancelled by user" then .idleSilent
  else if includesStr errMsg "Cancelled by receiver" || includesStr errMsg "Broken pipe" ||
      includesStr errMsg "Connection reset" then .cancelledByReceiverAlert
  else .failAlert

/-- Claim C2 as stated: the desktop outcome classification (close code 4001
without prior error is cancelled-by-receiver and never success, any other
close without prior error is success, a prior socket error is reported as
the connection failure), and on Android every backend error message
containing one of the three receiver-cancellation markers is shown as
cancelled-by-receiver. -/
def claimC2Stated : Prop :=
  sessionOutcome none 4001 = .rejected "Cancelled by receiver"
  ∧ (∀ c, c ≠ 4001 → sessionOutcome none c = .resolved)
  ∧ (∀ c m, sessionOutcome (some m) c = .rejected m)
  ∧ (∀ msg,
      (includesStr msg "Cancelled by receiver" || includesStr msg "Broken pipe" ||
        includesStr msg "Connection reset") = true →
      androidReport msg = .cancelledByReceiverAlert)

/-! ## Send queue (`sendFiles`, `src/App.tsx` lines 516-556)

The queue loop is modelled per round: round `i` starts at the cancel
checkpoint before file `i`.  The environment records in which rounds a
cancel request arrives (`req i` means a request arrives after the
checkpoint of round `i` and before the checkpoint of round `i+1`) and the
result of each file's `sendSingleFile` call. -/

/-- Result of one `sendSingleFile` call as seen by `sendFiles`. -/
inductive FileSendResult where
  | ok
  | err (msg : String)

/-- Environment of one `sendFiles` run. -/
structure QueueEnv where
  req : Nat → Bool
  res : Nat → FileSendResult

/-- Status of one queue item (`FileQueueItem.status` with its error text). -/
inductive ItemStatus where
  | pending
  | sending
  | completed
  | failed (msg : String)
deriving DecidableEq

/-- A status update `updateItemStatus(index, status)`. -/
abbrev QEvent := Nat × ItemStatus

/-- Display text `t('send.cancelledByReceiver')`. -/
def recvCancelText : String := "send.cancelledByReceiver"

/-- The error text `sendFiles` stores on a failed item: receiver
cancellations are replaced by the translated alert text. -/
def displayErr (m : String) : String :=
  if includesStr m "Cancelled by receiver" then recvCancelText else m

/-- The cancel flag's value at the checkpoint before file `i`: the base
value at entry joined with every request that arrived in an earlier
round.  `sendFiles` resets the flag at entry, so it is called with
`base = false`. -/
def flagAtCheck (base : Bool) (env : QueueEnv) (i : Nat) : Bool :=
  base || (List.range i).any env.req

/-- The queue loop from file `i` with `fuel` files left: at each round it
checks the cancel flag (marking the item failed with `Cancelled` and
stopping), runs the file's session, and on an error marks the item failed
and stops.  Returns the chronological status updates, the `allSucceeded`
flag, and the index bounding the rounds whose cancel requests the final
flag read can observe. -/
def runQ (base : Bool) (env : QueueEnv) : Nat → Nat → List QEvent × Bool × Nat
  | i, 0 => ([], true, i)
  | i, fuel + 1 =>
    if flagAtCheck base env i then ([(i, .failed "Cancelled")], false, i)
    else
      match env.res i with
      | .ok =>
        let r := runQ base env (i + 1) fuel
        ((i, .sending) :: (i, .completed) :: r.1, r.2.1, r.2.2)
      | .err m => ([(i, .sending), (i, .failed (displayErr m))], false, i + 1)

/-- The `sendStatus` values `sendFiles` can leave behind. -/
inductive SendStatusM where
  | idle
  | sending
  | success
  | error
deriving DecidableEq

/-- The whole `sendFiles` call: an empty queue returns immediately (no
reset, no status); otherwise the flag is reset at entry, the queue runs,
the final status is `idle` when the flag is set at the final read,
`success` when every file completed, `error` otherwise, and the flag is
reset again.  Returns (status updates, final status if one was set, flag
value on exit). -/
def sendFilesModel (f0 : Bool) (env : QueueEnv) (n : Nat) :
    List QEvent × Option SendStatusM × Bool :=
  if n = 0 then ([], none, f0)
  else
    let r := runQ false env 0 n
    let wasCancelled := (List.range r.2.2).any env.req
    (r.1, some (if wasCancelled then .idle else if r.2.1 then .success else .error), false)

/-- The status updates of a `sendFiles` run over `n` files. -/
def queueEvents (env : QueueEnv) (n : Nat) : List QEvent := (runQ false env 0 n).1

/-- The status of item `j` after applying the updates `evs` to start value `s0`. -/
def statusFrom (s0 : ItemStatus) (evs : List QEvent) (j : Nat) : ItemStatus :=
  evs.foldl (fun s e => if e.1 = j then e.2 else s) s0

/-- The status of item `j` after the updates `evs` (all items start pending). -/
def statusAfter (evs : List QEvent) (j : Nat) : ItemStatus := statusFrom .pending evs j

/-- Whether a status is terminal. -/
def isTerminalB : ItemStatus → Bool
  | .completed => true
  | .failed _ => true
  | _ => false

/-- Whether a status is a failure. -/
def isFailedB : ItemStatus → Bool
  | .failed _ => true
  | _ => false

/-- The status transitions claim C3 states: pending to sending, sending to
a terminal status, and stutter. -/
def statedTransB : ItemStatus → ItemStatus → Bool
  | .pending, .sending => true
  | .sending, .completed => true
  | .sending, .failed _ => true
  | s, s' => decide (s = s')

/-- The status transitions the code actually performs: additionally an item
cancelled before its session starts goes directly from pending to
`failed "Cancelled"`. -/
def amendedTransB : ItemStatus → ItemStatus → Bool
  | .pending, .sending => true
  | .pending, .failed m => m == "Cancelled"
  | .sending, .completed => true
  | .sending, .failed _ => true
  | s, s' => decide (s = s')

/-- Claim C3 as stated: over every snapshot of the queue, at most one item
is in progress; when an item has left pending every earlier item is
terminal; every status change is pending to sending or sending to
terminal (terminal states final); and after a failure every later item
stays pending. -/
def claimC3Stated : Prop :=
  ∀ (env : QueueEnv) (n : Nat),
    (∀ m j j', statusAfter ((queueEvents env n).take m) j = .sending →
       statusAfter ((queueEvents env n).take m) j' = .sending → j = j')
    ∧ (∀ m j i, statusAfter ((queueEvents env n).take m) j ≠ .pending → i < j →
        isTerminalB (statusAfter ((queueEvents env n).take m) i) = true)
    ∧ (∀ m j, statedTransB (statusAfter ((queueEvents env n).take m) j)
        (statusAfter ((queueEvents env n).take (m + 1)) j) = true)
    ∧ (∀ i j, isFailedB (statusAfter (queueEvents env n) i) = true → i < j →
        statusAfter (queueEvents env n) j = .pending)

/-- Shape of the status updates the queue loop can produce from file `i`
onward: nothing, a direct cancellation of item `i`, a failed session for
item `i`, or a completed session for item `i` followed by updates for the
rest of the queue. -/
inductive QWF : Nat → List QEvent → Prop where
  | nil (i : Nat) : QWF i []
  | stopCancel (i : Nat) : QWF i [(i, .failed "Cancelled")]
  | stopErr (i : Nat) (m : String) : QWF i [(i, .sending), (i, .failed m)]
  | step (i : Nat) (evs : List QEvent) : QWF (i + 1) evs →
      QWF i ((i, .sending) :: (i, .completed) :: evs)

/-! ## Transfer metadata message (`sendSingleFile` lines 431-439, legacy
`sendFile`, and the receiver's parse) -/

/-- A JSON field value in the metadata text frame. -/
inductive JVal where
  | str (s : String)
  | num (n : Nat)
deriving DecidableEq

/-- The metadata object `sendSingleFile` serializes on open:
`{name, size, index, total}`. -/
def senderWire (f : SendFile) (idx total : Nat) : List (String × JVal) :=
  [("name", .str f.name), ("size", .num f.size), ("index", .num idx), ("total", .num total)]

/-- A parsed transfer metadata message; `size`, `index` and `total` are
optional. -/
structure TransferMetadata where
  name : String
  size : Option Nat
  index : Option Nat
  total : Option Nat
deriving DecidableEq

/-- First field with the given key. -/
def lookupField (key : String) (fields : List (String × JVal)) : Option JVal :=
  (fields.find? (fun e => e.1 == key)).map (fun e => e.2)

/-- Numeric payload of an optional field. -/
def asNum : Option JVal → Option Nat
  | some (.num n) => some n
  | _ => none

/-- Modelled from the spec: the receiving side's parsing of the transfer
metadata message lives in the Rust backend, which is not among the
sources; per the spec, `size`, `index` and `total` are optional/defaulted
for backward compatibility and a legacy message carrying only `name` is a
valid metadata message. -/
def parseMetadata (fields : List (String × JVal)) : Option TransferMetadata :=
  match lookupField "name" fields with
  | some (.str n) =>
    some ⟨n, asNum (lookupField "size" fields), asNum (lookupField "index" fields),
      asNum (lookupField "total" fields)⟩
  | _ => none

/-! ## Chat auto-reconnect handler (`src/App.tsx` lines 221-259) -/

/-- The chat-relevant frontend state: active peer, connection flag, error
banner, and message history. -/
structure ChatState where
  activeChatIp : Option String
  chatConnected : Bool
  chatError : Option String
  messages : List String
deriving DecidableEq

/-- The fixed delay before the reverse `connect_to_chat` call, in ms. -/
def chatReconnectDelayMs : Nat := 300

/-- The `chat-connected` event handler: if the peer is the active chat
partner it marks the chat connected, scheduling a delayed reverse
connection when the chat was considered disconnected; if there is no
active partner it auto-accepts (sets the peer active, clears the history,
schedules the delayed reverse connection, marks connected); otherwise it
does nothing.  Returns the new state and the scheduled
`connect_to_chat` calls as (target, delay-ms). -/
def onChatConnected (st : ChatState) (peerIp : String) : ChatState × List (String × Nat) :=
  if st.activeChatIp = some peerIp then
    ({ st with chatConnected := true, chatError := none },
      if st.chatConnected then [] else [(peerIp, chatReconnectDelayMs)])
  else if st.activeChatIp = none then
    ({ activeChatIp := some peerIp, chatConnected := true, chatError := none, messages := [] },
      [(peerIp, chatReconnectDelayMs)])
  else (st, [])

/-! ## Android storage plugin writer registry (`StoragePlugin.kt`) -/

/-- The plugin's mutable state: the handle counter, the open output streams
(handle to written bytes), and the document URI of each open stream. -/
structure StorageState where
  nextHandle : Nat
  streams : List (Nat × List Nat)
  docUris : List (Nat × String)
deriving DecidableEq

/-- The plugin's initial state (`nextHandle = 1`, no open streams). -/
def initStorage : StorageState := ⟨1, [], []⟩

/-- How an `openWriter` attempt can go: `createDocument` returns null, the
output stream cannot be opened, an exception is thrown, or it succeeds. -/
inductive OpenOutcome where
  | createFails
  | streamFails
  | throws (msg : String)
  | succeeds

/-- One storage plugin command with its environment-chosen failure mode. -/
inductive StorageOp where
  | openW (o : OpenOutcome) (uri name : String)
  | writeW (handle : Nat) (data : List Nat) (exc : Option String)
  | closeW (handle : Nat) (exc : Option String)

/-- The stream contents registered under a handle, if any. -/
def lookupStream (h : Nat) (st : StorageState) : Option (List Nat) :=
  (st.streams.find? (fun e => e.1 == h)).map (fun e => e.2)

/-- `openWriter`: every failure rejects before the handle counter is
touched; on success the current counter value becomes the handle, the
counter is incremented, and the stream and document URI are registered. -/
def openWriter (o : OpenOutcome) (uri name : String) (st : StorageState) :
    StorageState × Except String Nat :=
  match o with
  | .createFails => (st, .error "Failed to create document")
  | .streamFails => (st, .error "Failed to open output stream")
  | .throws m => (st, .error ("Error: " ++ m))
  | .succeeds =>
    ({ nextHandle := st.nextHandle + 1,
       streams := (st.nextHandle, []) :: st.streams,
       docUris := (st.nextHandle, uri ++ "/" ++ name) :: st.docUris },
      .ok st.nextHandle)

/-- `writeChunk`: an unregistered handle rejects with `Invalid handle` and
changes nothing; a write exception rejects and leaves the registry
unchanged; otherwise the bytes are appended to the stream. -/
def writeChunk (h : Nat) (data : List Nat) (exc : Option String) (st : StorageState) :
    StorageState × Except String Unit :=
  match lookupStream h st with
  | none => (st, .error "Invalid handle")
  | some content =>
    match exc with
    | some m => (st, .error ("Write error: " ++ m))
    | none =>
      ({ st with
         streams := st.streams.map (fun e => if e.1 = h then (e.1, content ++ data) else e) },
        .ok ())

/-- `closeWriter`: the handle is removed from both maps first; if it was
absent the call rejects with `Invalid handle`; otherwise flush/close runs,
rejecting on an exception — in every case the handle stays removed. -/
def closeWriter (h : Nat) (exc : Option String) (st : StorageState) :
    StorageState × Except String Unit :=
  let removed : StorageState :=
    { st with
      streams := st.streams.filter (fun e => e.1 != h),
      docUris := st.docUris.filter (fun e => e.1 != h) }
  match lookupStream h st with
  | none => (removed, .error "Invalid handle")
  | some _ =>
    match exc with
    | some m => (removed, .error ("Close error: " ++ m))
    | none => (removed, .ok ())

/-- Run a sequence of storage commands, collecting the handles returned by
successful `openWriter` calls in order. -/
def runOps : List StorageOp → StorageState → StorageState × List Nat
  | [], st => (st, [])
  | op :: ops, st =>
    let next : StorageState × List Nat :=
      match op with
      | .openW o uri name =>
        let r := openWriter o uri name st
        (r.1, match r.2 with | .ok h => [h] | .error _ => [])
      | .writeW h d e => ((writeChunk h d e st).1, [])
      | .closeW h e => ((closeWriter h e st).1, [])
    let r := runOps ops next.1
    (r.1, next.2 ++ r.2)

/-- Number of successful `openWriter` calls in a command sequence. -/
def countSucc : List StorageOp → Nat
  | [] => 0
  | .openW .succeeds _ _ :: ops => countSucc ops + 1
  | _ :: ops => countSucc ops

/-- Registry invariant: open-stream handles are pairwise distinct and below
the counter. -/
def keysOk (st : StorageState) : Prop :=
  (st.streams.map (fun e => e.1)).Nodup ∧ ∀ e ∈ st.streams, e.1 < st.nextHandle

/-! ## Clipboard anti-echo (spec-modelled)

Modelled from the spec: the clipboard synchronization module (its poll
loop and receive handler) lives in the Rust backend, which is not among
the sources.  Per the spec, the receive handler updates the last-known
hash strictly before applying the received content to the system
clipboard, and the poll tick broadcasts the clipboard only when its hash
differs from the last-known hash. -/

/-- Clipboard-relevant node state: the last-known content hash and the
system clipboard's text. -/
structure ClipNode where
  lastKnownHash : String
  clipboard : String
deriving DecidableEq

/-- The receive handler's primitive actions. -/
inductive ClipAction where
  | setHash (h : String)
  | setClipboard (c : String)

/-- Modelled from the spec: on receiving clipboard content the node first
updates the last-known hash, then writes the content to the system
clipboard (update-before-apply). -/
def receiveActions (hash : String → String) (content : String) : List ClipAction :=
  [.setHash (hash content), .setClipboard content]

/-- Apply one primitive clipboard action. -/
def applyAction (st : ClipNode) : ClipAction → ClipNode
  | .setHash h => { st with lastKnownHash := h }
  | .setClipboard c => { st with clipboard := c }

/-- The complete receive handler. -/
def receiveClip (hash : String → String) (content : String) (st : ClipNode) : ClipNode :=
  (receiveActions hash content).foldl applyAction st

/-- Modelled from the spec: one poll tick reads the local clipboard, hashes
it, and broadcasts it to the connected peers only when the hash differs
from the last-known hash (updating the hash).  Returns the new state and
the broadcast payloads. -/
def pollClip (hash : String → String) (st : ClipNode) : ClipNode × List String :=
  let h := hash st.clipboard
  if h = st.lastKnownHash then (st, [])
  else ({ st with lastKnownHash := h }, [st.clipboard])


/-! ## Theorems -/

/-- Unfolding of `sessEvents`. -/
theorem sessEvents_eq (env : SessEnv) (f : SendFile) (idx total k : Nat) :
    sessEvents env f idx total k
      = (sessStep env f idx total k (sessState env f idx total k)).2 := rfl

/-- Unfolding of `sessState` at a successor step. -/
theorem sessState_succ (env : SessEnv) (f : SendFile) (idx total k : Nat) :
    sessState env f idx total (k + 1)
      = (sessStep env f idx total k (sessState env f idx total k)).1 := rfl

/-- Unfolding of `sessObsBuf`. -/
theorem sessObsBuf_eq (env : SessEnv) (f : SendFile) (idx total k : Nat) :
    sessObsBuf env f idx total k
      = (sessState env f idx total k).buffered - env.drain k := rfl

/-- Claim C1, counterexample: the claim states that whenever the buffered
byte count exceeds the 4 MB high-water mark, the sender reads no further
chunk from the file source until the buffer has drained; but the code
checks the buffer only between reading a chunk and sending it, so after a
send pushes the buffer over the mark the next loop iteration still reads
one more chunk.  Concretely, for a file with chunks of `HWM + 1` and `1`
bytes and a socket that never drains, step 3 observes a buffer of
`HWM + 1 > HWM` bytes and nevertheless reads the second chunk. -/
theorem lanC1_counterexample : ¬ claimC1Stated := by
  intro h
  have h3 := h ⟨fun _ => false, fun _ => 0⟩ ⟨"a.bin", HWM + 2, [HWM + 1, 1]⟩ 0 1 3 (by decide)
  exact absurd h3 (by decide)

/-- Claim C1 (amended): the backpressure check runs after each chunk is
read and before it is sent, so while the observed buffered amount exceeds
the 4 MB high-water mark the sender sends no file data (every send step
observes a buffer of at most the mark), and inside the backpressure wait
it only sleeps in fixed 50 ms intervals without reading or sending; one
chunk may however already have been read before the check. -/
theorem lanC1_amended : ∀ (env : SessEnv) (f : SendFile) (idx total k : Nat),
    (∀ c, SEvent.sendData c ∈ sessEvents env f idx total k →
      sessObsBuf env f idx total k ≤ HWM)
    ∧ (∀ c rest, (sessState env f idx total k).phase = .bpCheck c rest →
        HWM < sessObsBuf env f idx total k →
        sessEvents env f idx total k = [.sleepMs 50]
        ∧ (sessState env f idx total (k + 1)).phase = .bpWait c rest)
    ∧ (∀ c rest, ((sessState env f idx total k).phase = .bpCheck c rest
        ∨ (sessState env f idx total k).phase = .bpWait c rest) →
        ∀ n, SEvent.readChunk n ∉ sessEvents env f idx total k) := by
  intro env f idx total k
  rcases hs : sessState env f idx total k with ⟨ph, b⟩
  have hev : sessEvents env f idx total k = (sessStep env f idx total k ⟨ph, b⟩).2 := by
    rw [sessEvents_eq, hs]
  have hst : sessState env f idx total (k + 1) = (sessStep env f idx total k ⟨ph, b⟩).1 := by
    rw [sessState_succ, hs]
  have hob : sessObsBuf env f idx total k = b - env.drain k := by
    rw [sessObsBuf_eq, hs]
  refine ⟨?_, ?_, ?_⟩
  · intro c hc
    rw [hev] at hc
    rw [hob]
    cases ph with
    | start => simp [sessStep] at hc
    | loopTop rest =>
      by_cases hcan : env.cancel k
      · simp [sessStep, hcan] at hc
      · cases rest <;> simp [sessStep, hcan] at hc
    | bpCheck c' rest =>
      by_cases hbuf : HWM < b - env.drain k
      · simp [sessStep, hbuf] at hc
      · exact Nat.le_of_not_lt hbuf
    | bpWait c' rest =>
      by_cases hcan : env.cancel k
      · simp [sessStep, hcan] at hc
      · simp [sessStep, hcan] at hc
    | done bb => simp [sessStep] at hc
  · intro c rest hphase hover
    rw [hob] at hover
    simp only [hs] at hphase
    subst hphase
    constructor
    · rw [hev]; simp [sessStep, hover]
    · rw [hst]; simp [sessStep, hover]
  · intro c rest hphase n hmem
    rw [hev] at hmem
    simp only [hs] at hphase
    rcases hphase with hp | hp <;> subst hp
    · by_cases hbuf : HWM < b - env.drain k
      · simp [sessStep, hbuf] at hmem
      · simp [sessStep, hbuf] at hmem
    · by_cases hcan : env.cancel k
      · simp [sessStep, hcan] at hmem
      · simp [sessStep, hcan] at hmem

/-- Claim C1 witness: a concrete send step (step 2 of the counterexample
session, the one that sends the first chunk) observes a buffer of at most
the high-water mark. -/
theorem lanC1_amended_witness :
    SEvent.sendData (HWM + 1)
      ∈ sessEvents ⟨fun _ => false, fun _ => 0⟩ ⟨"a.bin", HWM + 2, [HWM + 1, 1]⟩ 0 1 2
    ∧ sessObsBuf ⟨fun _ => false, fun _ => 0⟩ ⟨"a.bin", HWM + 2, [HWM + 1, 1]⟩ 0 1 2 ≤ HWM :=
  ⟨by decide,
    (lanC1_amended ⟨fun _ => false, fun _ => 0⟩ ⟨"a.bin", HWM + 2, [HWM + 1, 1]⟩ 0 1 2).1
      (HWM + 1) (by decide)⟩

/-- Claim C2, counterexample: the claim states that every backend error
message containing `Cancelled by receiver`, `Broken pipe` or
`Connection reset` is shown as cancelled-by-receiver; but
`handleAndroidSend` checks `Cancelled by user` first, so the concrete
message `"Cancelled by user: Broken pipe"` (which contains
`Broken pipe`) is shown silently as a local cancellation instead. -/
theorem lanC2_counterexample : ¬ claimC2Stated := by
  intro h
  have hx := h.2.2.2 "Cancelled by user: Broken pipe" (by decide)
  exact absurd hx (by decide)

/-- Claim C2 (amended): a close with application code 4001 and no prior
error is reported as cancelled-by-receiver (never as success); any other
close with no prior error is reported as success; a socket error or
exception during sending is reported as the recorded failure (the socket
error uses the generic `Connection failed`).  On the Android path, a
backend error message containing `Cancelled by receiver`, `Broken pipe`
or `Connection reset` is shown as cancelled-by-receiver, distinct from
the generic failure alert — except that a message also containing
`Cancelled by user` takes the silent local-cancellation branch, which is
checked first. -/
theorem lanC2_amended :
    sessionOutcome none 4001 = .rejected "Cancelled by receiver"
    ∧ sessionOutcome none 4001 ≠ .resolved
    ∧ (∀ c, c ≠ 4001 → sessionOutcome none c = .resolved)
    ∧ (∀ c m, sessionOutcome (some m) c = .rejected m)
    ∧ (∀ c, sessionOutcome (some socketErrorMsg) c = .rejected "Connection failed")
    ∧ (∀ msg, includesStr msg "Cancelled by user" = false →
        (includesStr msg "Cancelled by receiver" || includesStr msg "Broken pipe" ||
          includesStr msg "Connection reset") = true →
        androidReport msg = .cancelledByReceiverAlert ∧ androidReport msg ≠ .failAlert)
    ∧ (∀ msg, includesStr msg "Cancelled by user" = true →
        androidReport msg = .idleSilent) := by
  refine ⟨by decide, by decide, ?_, ?_, ?_, ?_, ?_⟩
  · intro c hc
    simp [sessionOutcome, hc]
  · intro c m
    simp [sessionOutcome]
  · intro c
    simp [sessionOutcome, socketErrorMsg]
  · intro msg h1 h2
    constructor
    · simp [androidReport, h1, h2]
    · simp [androidReport, h1, h2]
  · intro msg h1
    simp [androidReport, h1]

/-- Claim C2 witness: the concrete backend error `"Broken pipe"` contains
no `Cancelled by user` marker and is shown as cancelled-by-receiver. -/
theorem lanC2_amended_witness :
    includesStr "Broken pipe" "Cancelled by user" = false
    ∧ (includesStr "Broken pipe" "Cancelled by receiver" ||
        includesStr "Broken pipe" "Broken pipe" ||
        includesStr "Broken pipe" "Connection reset") = true
    ∧ androidReport "Broken pipe" = .cancelledByReceiverAlert
    ∧ sessionOutcome none 1000 = .resolved :=
  ⟨by decide, by decide,
    (lanC2_amended.2.2.2.2.2.1 "Broken pipe" (by decide) (by decide)).1,
    lanC2_amended.2.2.1 1000 (by decide)⟩

/-- A status fold over events that never touch item `j` leaves the start
value unchanged. -/
theorem statusFrom_untouched : ∀ (evs : List QEvent) (s0 : ItemStatus) (j : Nat),
    (∀ e ∈ evs, e.1 ≠ j) → statusFrom s0 evs j = s0 := by
  intro evs
  induction evs with
  | nil => intro s0 j _; rfl
  | cons e evs ih =>
    intro s0 j hne
    have he : e.1 ≠ j := hne e (List.mem_cons_self e evs)
    have : statusFrom s0 (e :: evs) j = statusFrom (if e.1 = j then e.2 else s0) evs j := rfl
    rw [this, if_neg he]
    exact ih s0 j fun e' he' => hne e' (List.mem_cons_of_mem e he')

/-- Every status update produced by the queue loop from item `i` onward
concerns an item with index at least `i`. -/
theorem qwf_keys {i : Nat} {evs : List QEvent} (h : QWF i evs) :
    ∀ e ∈ evs, i ≤ e.1 := by
  induction h with
  | nil i => intro e he; simp at he
  | stopCancel i =>
    intro e he
    simp only [List.mem_singleton] at he
    subst he; exact Nat.le_refl i
  | stopErr i m =>
    intro e he
    rcases (by simpa using he : e = (i, ItemStatus.sending) ∨ e = (i, ItemStatus.failed m)) with
      h1 | h1 <;> (subst h1; exact Nat.le_refl i)
  | step i evs hwf ih =>
    intro e he
    rcases (by simpa using he :
        e = (i, ItemStatus.sending) ∨ e = (i, ItemStatus.completed) ∨ e ∈ evs) with
      h1 | h1 | h1
    · subst h1; exact Nat.le_refl i
    · subst h1; exact Nat.le_refl i
    · exact Nat.le_trans (Nat.le_succ i) (ih e h1)

/-- Items below the loop's start index keep their start value. -/
theorem statusFrom_below {i : Nat} {evs : List QEvent} (h : QWF i evs) {j : Nat}
    (hj : j < i) (s0 : ItemStatus) : statusFrom s0 evs j = s0 :=
  statusFrom_untouched evs s0 j fun e he =>
    Nat.ne_of_gt (Nat.lt_of_lt_of_le hj (qwf_keys h e he))

/-- Items below the loop's start index keep their start value on any prefix. -/
theorem statusFrom_take_below {i : Nat} {evs : List QEvent} (h : QWF i evs) {j : Nat}
    (hj : j < i) (s0 m : _) : statusFrom s0 (evs.take m) j = s0 :=
  statusFrom_untouched (evs.take m) s0 j fun e he =>
    Nat.ne_of_gt (Nat.lt_of_lt_of_le hj (qwf_keys h e (List.take_subset m evs he)))

/-- Status over a prefix of a single-update list. -/
theorem statusAfter_take_one (i : Nat) (st : ItemStatus) (j m : Nat) :
    statusAfter (([(i, st)] : List QEvent).take (m + 1)) j
      = if i = j then st else .pending := by
  by_cases hij : i = j <;> simp [statusAfter, statusFrom, hij]

/-- Status over a full prefix of a two-update list for one item. -/
theorem statusAfter_take_two (i : Nat) (s1 s2 : ItemStatus) (j m : Nat) :
    statusAfter (([(i, s1), (i, s2)] : List QEvent).take (m + 2)) j
      = if i = j then s2 else .pending := by
  by_cases hij : i = j <;> simp [statusAfter, statusFrom, hij]

/-- Status after the first two updates of a completed session, over a prefix. -/
theorem statusAfter_take_cons2 (i : Nat) (evs : List QEvent) (j m : Nat) :
    statusAfter ((((i, ItemStatus.sending) : QEvent) :: (i, ItemStatus.completed) :: evs).take
        (m + 2)) j
      = statusFrom (if i = j then ItemStatus.completed else ItemStatus.pending) (evs.take m) j := by
  by_cases hij : i = j <;> simp [statusAfter, statusFrom, hij]

/-- Status after the first two updates of a completed session, full list. -/
theorem statusAfter_cons2 (i : Nat) (evs : List QEvent) (j : Nat) :
    statusAfter (((i, ItemStatus.sending) : QEvent) :: (i, ItemStatus.completed) :: evs) j
      = statusFrom (if i = j then ItemStatus.completed else ItemStatus.pending) evs j := by
  by_cases hij : i = j <;> simp [statusAfter, statusFrom, hij]

/-- The queue loop produces well-shaped status updates. -/
theorem runQ_qwf : ∀ (fuel : Nat) (base : Bool) (env : QueueEnv) (i : Nat),
    QWF i (runQ base env i fuel).1 := by
  intro fuel
  induction fuel with
  | zero => intro base env i; exact QWF.nil i
  | succ fuel ih =>
    intro base env i
    by_cases hf : flagAtCheck base env i = true
    · have : (runQ base env i (fuel + 1)).1 = [(i, .failed "Cancelled")] := by
        simp [runQ, hf]
      rw [this]; exact QWF.stopCancel i
    · cases hres : env.res i with
      | ok =>
        have : (runQ base env i (fuel + 1)).1
            = (i, .sending) :: (i, .completed) :: (runQ base env (i + 1) fuel).1 := by
          simp [runQ, hf, hres]
        rw [this]; exact QWF.step i _ (ih base env (i + 1))
      | err m =>
        have : (runQ base env i (fuel + 1)).1
            = [(i, .sending), (i, .failed (displayErr m))] := by
          simp [runQ, hf, hres]
        rw [this]; exact QWF.stopErr i (displayErr m)

/-- Status of a single-update list. -/
theorem statusAfter_one (i : Nat) (st : ItemStatus) (j : Nat) :
    statusAfter ([(i, st)] : List QEvent) j = if i = j then st else .pending := by
  by_cases hij : i = j <;> simp [statusAfter, statusFrom, hij]

/-- Over every snapshot of a well-shaped update list, at most one item is
in the sending status. -/
theorem qwf_atMostOne {i : Nat} {evs : List QEvent} (h : QWF i evs) :
    ∀ m j j', statusAfter (evs.take m) j = .sending →
      statusAfter (evs.take m) j' = .sending → j = j' := by
  induction h with
  | nil i =>
    intro m j j' hj hj'
    simp [statusAfter, statusFrom] at hj
  | stopCancel i =>
    intro m j j' hj hj'
    rcases m with _ | m
    · simp [statusAfter, statusFrom] at hj
    · rw [statusAfter_take_one] at hj
      split at hj <;> simp_all
  | stopErr i m0 =>
    intro m j j' hj hj'
    rcases m with _ | m
    · simp [statusAfter, statusFrom] at hj
    · rcases m with _ | m
      · rw [show (([((i : Nat), ItemStatus.sending), (i, ItemStatus.failed m0)] :
            List QEvent).take 1) = [(i, ItemStatus.sending)] from rfl] at hj hj'
        rw [statusAfter_one] at hj hj'
        split at hj
        · split at hj'
          · omega
          · simp_all
        · simp_all
      · rw [statusAfter_take_two] at hj
        split at hj <;> simp_all
  | step i evs hwf ih =>
    intro m j j' hj hj'
    rcases m with _ | m
    · simp [statusAfter, statusFrom] at hj
    · rcases m with _ | m
      · rw [show ((((i, ItemStatus.sending) : QEvent) :: (i, ItemStatus.completed) ::
            evs).take 1) = [(i, ItemStatus.sending)] from rfl] at hj hj'
        rw [statusAfter_one] at hj hj'
        split at hj
        · split at hj'
          · omega
          · simp_all
        · simp_all
      · rw [statusAfter_take_cons2] at hj hj'
        by_cases hij : i = j
        · subst hij
          rw [if_pos rfl, statusFrom_untouched] at hj
          · simp at hj
          · intro e he
            exact Nat.ne_of_gt (Nat.lt_of_lt_of_le (Nat.lt_succ_self i)
              (qwf_keys hwf e (List.take_subset m evs he)))
        · by_cases hij' : i = j'
          · subst hij'
            rw [if_pos rfl, statusFrom_untouched] at hj'
            · simp at hj'
            · intro e he
              exact Nat.ne_of_gt (Nat.lt_of_lt_of_le (Nat.lt_succ_self i)
                (qwf_keys hwf e (List.take_subset m evs he)))
          · rw [if_neg hij] at hj
            rw [if_neg hij'] at hj'
            exact ih m j j' hj hj'

/-- Status of a full two-update list for one item. -/
theorem statusAfter_two (i : Nat) (s1 s2 : ItemStatus) (j : Nat) :
    statusAfter ([(i, s1), (i, s2)] : List QEvent) j = if i = j then s2 else .pending := by
  by_cases hij : i = j <;> simp [statusAfter, statusFrom, hij]

/-- The amended transition relation is reflexive (stutter steps are legal). -/
theorem amendedTransB_refl (s : ItemStatus) : amendedTransB s s = true := by
  cases s <;> simp [amendedTransB]

/-- In every snapshot of a well-shaped update list, once an item has left
pending, every item before it (from the loop's start index on) is
terminal. -/
theorem qwf_serial {i : Nat} {evs : List QEvent} (h : QWF i evs) :
    ∀ m j i', statusAfter (evs.take m) j ≠ .pending → i ≤ i' → i' < j →
      isTerminalB (statusAfter (evs.take m) i') = true := by
  induction h with
  | nil i =>
    intro m j i' hne hle hlt
    simp [statusAfter, statusFrom] at hne
  | stopCancel i =>
    intro m j i' hne hle hlt
    rcases m with _ | m
    · simp [statusAfter, statusFrom] at hne
    · rw [statusAfter_take_one] at hne
      by_cases hij : i = j
      · subst hij; omega
      · rw [if_neg hij] at hne; exact absurd rfl hne
  | stopErr i m0 =>
    intro m j i' hne hle hlt
    rcases m with _ | m
    · simp [statusAfter, statusFrom] at hne
    · rcases m with _ | m
      · rw [show (([((i : Nat), ItemStatus.sending), (i, ItemStatus.failed m0)] :
            List QEvent).take 1) = [(i, ItemStatus.sending)] from rfl] at hne
        rw [statusAfter_one] at hne
        by_cases hij : i = j
        · subst hij; omega
        · rw [if_neg hij] at hne; exact absurd rfl hne
      · rw [statusAfter_take_two] at hne
        by_cases hij : i = j
        · subst hij; omega
        · rw [if_neg hij] at hne; exact absurd rfl hne
  | step i evs hwf ih =>
    intro m j i' hne hle hlt
    rcases m with _ | m
    · simp [statusAfter, statusFrom] at hne
    · rcases m with _ | m
      · rw [show ((((i, ItemStatus.sending) : QEvent) :: (i, ItemStatus.completed) ::
            evs).take 1) = [(i, ItemStatus.sending)] from rfl] at hne ⊢
        rw [statusAfter_one] at hne
        by_cases hij : i = j
        · subst hij; omega
        · rw [if_neg hij] at hne; exact absurd rfl hne
      · rw [statusAfter_take_cons2] at hne ⊢
        by_cases hij : i = j
        · subst hij; omega
        · rw [if_neg hij] at hne
          by_cases hii : i = i'
          · subst hii
            rw [if_pos rfl, statusFrom_take_below hwf (Nat.lt_succ_self i)]
            rfl
          · rw [if_neg hii]
            exact ih m j i' hne (by omega) hlt

/-- Status over the empty update list. -/
theorem statusAfter_nil (j : Nat) : statusAfter ([] : List QEvent) j = .pending := rfl

/-- Every snapshot-to-snapshot status change of a well-shaped update list
follows the amended transition relation. -/
theorem qwf_trans {i : Nat} {evs : List QEvent} (h : QWF i evs) :
    ∀ m j, amendedTransB (statusAfter (evs.take m) j)
      (statusAfter (evs.take (m + 1)) j) = true := by
  induction h with
  | nil i =>
    intro m j
    simp only [List.take_nil, statusAfter_nil]
    decide
  | stopCancel i =>
    intro m j
    rcases m with _ | m
    · rw [show (([((i : Nat), ItemStatus.failed "Cancelled")] : List QEvent).take 0)
          = [] from rfl, statusAfter_nil]
      rw [show (([((i : Nat), ItemStatus.failed "Cancelled")] : List QEvent).take (0 + 1))
          = [(i, ItemStatus.failed "Cancelled")] from rfl,
        statusAfter_one i (ItemStatus.failed "Cancelled") j]
      by_cases hij : i = j
      · rw [if_pos hij]; decide
      · rw [if_neg hij]; decide
    · rw [statusAfter_take_one i (ItemStatus.failed "Cancelled") j m,
        show ((m + 1 + 1) : Nat) = (m + 1) + 1 from rfl,
        statusAfter_take_one i (ItemStatus.failed "Cancelled") j (m + 1)]
      exact amendedTransB_refl _
  | stopErr i m0 =>
    intro m j
    rcases m with _ | m
    · rw [show (([((i : Nat), ItemStatus.sending), (i, ItemStatus.failed m0)] :
          List QEvent).take 0) = [] from rfl, statusAfter_nil]
      rw [show (([((i : Nat), ItemStatus.sending), (i, ItemStatus.failed m0)] :
          List QEvent).take (0 + 1)) = [(i, ItemStatus.sending)] from rfl,
        statusAfter_one i ItemStatus.sending j]
      by_cases hij : i = j
      · rw [if_pos hij]; decide
      · rw [if_neg hij]; decide
    · rcases m with _ | m
      · rw [show (([((i : Nat), ItemStatus.sending), (i, ItemStatus.failed m0)] :
            List QEvent).take 1) = [(i, ItemStatus.sending)] from rfl,
          statusAfter_one i ItemStatus.sending j,
          show ((1 + 1) : Nat) = 0 + 2 from rfl,
          statusAfter_take_two i ItemStatus.sending (ItemStatus.failed m0) j 0]
        by_cases hij : i = j
        · rw [if_pos hij, if_pos hij]; rfl
        · rw [if_neg hij, if_neg hij]; decide
      · rw [show ((m + 2 + 1) : Nat) = (m + 1) + 2 from rfl,
          statusAfter_take_two i ItemStatus.sending (ItemStatus.failed m0) j m,
          statusAfter_take_two i ItemStatus.sending (ItemStatus.failed m0) j (m + 1)]
        exact amendedTransB_refl _
  | step i evs hwf ih =>
    intro m j
    rcases m with _ | m
    · rw [show ((((i, ItemStatus.sending) : QEvent) :: (i, ItemStatus.completed) ::
          evs).take 0) = [] from rfl, statusAfter_nil]
      rw [show ((((i, ItemStatus.sending) : QEvent) :: (i, ItemStatus.completed) ::
          evs).take (0 + 1)) = [(i, ItemStatus.sending)] from rfl,
        statusAfter_one i ItemStatus.sending j]
      by_cases hij : i = j
      · rw [if_pos hij]; decide
      · rw [if_neg hij]; decide
    · rcases m with _ | m
      · rw [show ((((i, ItemStatus.sending) : QEvent) :: (i, ItemStatus.completed) ::
            evs).take 1) = [(i, ItemStatus.sending)] from rfl,
          statusAfter_one i ItemStatus.sending j,
          show ((1 + 1) : Nat) = 2 from rfl,
          show ((((i, ItemStatus.sending) : QEvent) :: (i, ItemStatus.completed) ::
            evs).take 2) = [(i, ItemStatus.sending), (i, ItemStatus.completed)] from rfl,
          statusAfter_two i ItemStatus.sending ItemStatus.completed j]
        by_cases hij : i = j
        · rw [if_pos hij, if_pos hij]; rfl
        · rw [if_neg hij, if_neg hij]; decide
      · rw [show ((m + 2 + 1) : Nat) = (m + 1) + 2 from rfl,
          statusAfter_take_cons2 i evs j m, statusAfter_take_cons2 i evs j (m + 1)]
        by_cases hij : i = j
        · subst hij
          rw [if_pos rfl, statusFrom_take_below hwf (Nat.lt_succ_self i),
            statusFrom_take_below hwf (Nat.lt_succ_self i)]
          exact amendedTransB_refl _
        · rw [if_neg hij]
          exact ih m j

/-- In a well-shaped update list, once some item has failed, every later
item keeps the pending status. -/
theorem qwf_aborts {i : Nat} {evs : List QEvent} (h : QWF i evs) :
    ∀ i' j, isFailedB (statusAfter evs i') = true → i' < j →
      statusAfter evs j = .pending := by
  induction h with
  | nil i =>
    intro i' j hf hlt
    simp [statusAfter, statusFrom, isFailedB] at hf
  | stopCancel i =>
    intro i' j hf hlt
    rw [statusAfter_one] at hf ⊢
    by_cases hii : i = i'
    · subst hii
      rw [if_neg (by omega : ¬ i = j)]
    · rw [if_neg hii] at hf; simp [isFailedB] at hf
  | stopErr i m0 =>
    intro i' j hf hlt
    rw [statusAfter_two] at hf ⊢
    by_cases hii : i = i'
    · subst hii
      rw [if_neg (by omega : ¬ i = j)]
    · rw [if_neg hii] at hf; simp [isFailedB] at hf
  | step i evs hwf ih =>
    intro i' j hf hlt
    rw [statusAfter_cons2] at hf ⊢
    by_cases hii : i = i'
    · subst hii
      rw [if_pos rfl, statusFrom_untouched] at hf
      · simp [isFailedB] at hf
      · intro e he
        exact Nat.ne_of_gt (Nat.lt_of_lt_of_le (Nat.lt_succ_self i) (qwf_keys hwf e he))
    · rw [if_neg hii] at hf
      by_cases hlo : i' < i + 1
      · rw [statusFrom_below hwf hlo] at hf
        simp [isFailedB] at hf
      · rw [if_neg (by omega : ¬ i = j)]
        exact ih i' j hf hlt

/-- Claim C3, counterexample: the claim states that every item's status
only ever transitions Pending to InProgress to a terminal status; but
when the cancel flag is observed at the checkpoint before a file starts,
`sendFiles` marks that still-pending item `failed('Cancelled')` directly,
skipping the in-progress status.  Concretely, with two files, a
successful first session and a cancel request during the first round,
item 1 jumps from pending straight to failed. -/
theorem lanC3_counterexample : ¬ claimC3Stated := by
  intro h
  have hx := (h ⟨fun j => j == 0, fun _ => .ok⟩ 2).2.2.1 2 1
  exact absurd hx (by decide)

/-- Claim C3 (amended): files are sent strictly serially — in every
snapshot at most one item is in progress, and when an item has left
pending every earlier item is already terminal; each item's status
transitions Pending to InProgress to one of Completed or Failed (there is
no separate Cancelled status: cancellation surfaces as Failed), except
that an item cancelled before its session starts transitions directly
from Pending to Failed with error `Cancelled`; terminal states are final;
and after a failed item every later item stays pending. -/
theorem lanC3_amended : ∀ (env : QueueEnv) (n : Nat),
    (∀ m j j', statusAfter ((queueEvents env n).take m) j = .sending →
       statusAfter ((queueEvents env n).take m) j' = .sending → j = j')
    ∧ (∀ m j i, statusAfter ((queueEvents env n).take m) j ≠ .pending → i < j →
        isTerminalB (statusAfter ((queueEvents env n).take m) i) = true)
    ∧ (∀ m j, amendedTransB (statusAfter ((queueEvents env n).take m) j)
        (statusAfter ((queueEvents env n).take (m + 1)) j) = true)
    ∧ (∀ i j, isFailedB (statusAfter (queueEvents env n) i) = true → i < j →
        statusAfter (queueEvents env n) j = .pending) := by
  intro env n
  have hwf : QWF 0 (queueEvents env n) := runQ_qwf n false env 0
  exact ⟨qwf_atMostOne hwf,
    fun m j i hne hij => qwf_serial hwf m j i hne (Nat.zero_le i) hij,
    qwf_trans hwf, qwf_aborts hwf⟩

/-- Claim C3 witness: in a concrete two-file run where both sessions
succeed, after three updates item 1 has left pending and item 0 is
terminal. -/
theorem lanC3_amended_witness :
    statusAfter ((queueEvents ⟨fun _ => false, fun _ => .ok⟩ 2).take 3) 1 ≠ .pending
    ∧ isTerminalB (statusAfter ((queueEvents ⟨fun _ => false, fun _ => .ok⟩ 2).take 3) 0)
      = true :=
  ⟨by decide,
    (lanC3_amended ⟨fun _ => false, fun _ => .ok⟩ 2).2.1 3 1 0 (by decide) (by decide)⟩

/-- Once a session is done it stays done and emits nothing further. -/
theorem sessDone_absorb (env : SessEnv) (f : SendFile) (idx total : Nat) (b : Bool) :
    ∀ k, (sessState env f idx total k).phase = .done b →
      ∀ j, k ≤ j → (sessState env f idx total j).phase = .done b
        ∧ sessEvents env f idx total j = [] := by
  intro k hk j hkj
  induction j, hkj using Nat.le_induction with
  | base =>
    refine ⟨hk, ?_⟩
    rcases hs : sessState env f idx total k with ⟨ph, b'⟩
    rw [hs] at hk
    simp only at hk
    subst hk
    rw [sessEvents_eq, hs]
    rfl
  | succ j hkj ihj =>
    obtain ⟨hph, _⟩ := ihj
    rcases hs : sessState env f idx total j with ⟨ph, b'⟩
    rw [hs] at hph
    simp only at hph
    subst hph
    constructor
    · rw [sessState_succ, hs]; rfl
    · rw [sessEvents_eq, sessState_succ, hs]
      rfl

/-- Claim C4: sender-initiated cancellation is cooperative and detected
exactly at the three checkpoints.  When the flag is set at the checkpoint
before a chunk read (`loopTop`) or inside the backpressure wait
(`bpWait`), that step records the observation, closes the socket, and
moves to the cancelled terminal phase; a finished session emits nothing
further (in particular no file data is sent after the observing
checkpoint); cancel observations happen only at those two in-session
checkpoints; and when the flag is set at the checkpoint before the next
queued file, the queue marks the item failed with `Cancelled` and starts
no session for it or any later file. -/
theorem lanC4 : ∀ (env : SessEnv) (f : SendFile) (idx total : Nat),
    (∀ k rest, env.cancel k = true →
      (sessState env f idx total k).phase = .loopTop rest →
      sessEvents env f idx total k = [.cancelObserved, .close]
        ∧ (sessState env f idx total (k + 1)).phase = .done true)
    ∧ (∀ k c rest, env.cancel k = true →
        (sessState env f idx total k).phase = .bpWait c rest →
        sessEvents env f idx total k = [.cancelObserved, .close]
          ∧ (sessState env f idx total (k + 1)).phase = .done true)
    ∧ (∀ k b, (sessState env f idx total k).phase = .done b →
        ∀ j, k ≤ j → sessEvents env f idx total j = [])
    ∧ (∀ k, SEvent.cancelObserved ∈ sessEvents env f idx total k →
        (∃ rest, (sessState env f idx total k).phase = .loopTop rest)
          ∨ (∃ c rest, (sessState env f idx total k).phase = .bpWait c rest))
    ∧ (∀ (base : Bool) (qenv : QueueEnv) (i fuel : Nat),
        flagAtCheck base qenv i = true →
        (runQ base qenv i (fuel + 1)).1 = [(i, ItemStatus.failed "Cancelled")]) := by
  intro env f idx total
  refine ⟨?_, ?_, ?_, ?_, ?_⟩
  · intro k rest hcan hph
    rcases hs : sessState env f idx total k with ⟨ph, b⟩
    rw [hs] at hph
    simp only at hph
    subst hph
    constructor
    · rw [sessEvents_eq, hs]; simp [sessStep, hcan]
    · rw [sessState_succ, hs]; simp [sessStep, hcan]
  · intro k c rest hcan hph
    rcases hs : sessState env f idx total k with ⟨ph, b⟩
    rw [hs] at hph
    simp only at hph
    subst hph
    constructor
    · rw [sessEvents_eq, hs]; simp [sessStep, hcan]
    · rw [sessState_succ, hs]; simp [sessStep, hcan]
  · intro k b hph j hkj
    exact (sessDone_absorb env f idx total b k hph j hkj).2
  · intro k hmem
    rcases hs : sessState env f idx total k with ⟨ph, b⟩
    rw [sessEvents_eq, hs] at hmem
    cases ph with
    | start => simp [sessStep] at hmem
    | loopTop rest => exact Or.inl ⟨rest, rfl⟩
    | bpCheck c rest =>
      by_cases hbuf : HWM < b - env.drain k
      · simp [sessStep, hbuf] at hmem
      · simp [sessStep, hbuf] at hmem
    | bpWait c rest => exact Or.inr ⟨c, rest, rfl⟩
    | done bb => simp [sessStep] at hmem
  · intro base qenv i fuel hflag
    simp [runQ, hflag]

/-- Claim C4 witness: with the cancel flag set from step 1 on and no
draining, the session observes the flag at the first loop-top checkpoint,
closes the socket, and the following step emits nothing. -/
theorem lanC4_witness :
    sessEvents ⟨fun k => decide (1 ≤ k), fun _ => 0⟩ ⟨"a.bin", 3, [1, 2]⟩ 0 1 1
      = [.cancelObserved, .close]
    ∧ (sessState ⟨fun k => decide (1 ≤ k), fun _ => 0⟩ ⟨"a.bin", 3, [1, 2]⟩ 0 1 2).phase
      = .done true
    ∧ sessEvents ⟨fun k => decide (1 ≤ k), fun _ => 0⟩ ⟨"a.bin", 3, [1, 2]⟩ 0 1 2 = [] :=
  ⟨((lanC4 ⟨fun k => decide (1 ≤ k), fun _ => 0⟩ ⟨"a.bin", 3, [1, 2]⟩ 0 1).1 1 [1, 2]
      (by decide) (by decide)).1,
    ((lanC4 ⟨fun k => decide (1 ≤ k), fun _ => 0⟩ ⟨"a.bin", 3, [1, 2]⟩ 0 1).1 1 [1, 2]
      (by decide) (by decide)).2,
    (lanC4 ⟨fun k => decide (1 ≤ k), fun _ => 0⟩ ⟨"a.bin", 3, [1, 2]⟩ 0 1).2.2.1 2 true
      (by decide) 2 (Nat.le_refl 2)⟩

/-- After the first step a session is never again in the start phase. -/
theorem sessPhase_ne_start (env : SessEnv) (f : SendFile) (idx total k : Nat) :
    (sessState env f idx total (k + 1)).phase ≠ .start := by
  rw [sessState_succ]
  rcases hs : sessState env f idx total k with ⟨ph, b⟩
  cases ph with
  | start => simp [sessStep]
  | loopTop rest =>
    by_cases hcan : env.cancel k
    · simp [sessStep, hcan]
    · cases rest <;> simp [sessStep, hcan]
  | bpCheck c rest =>
    by_cases hbuf : HWM < b - env.drain k
    · simp [sessStep, hbuf]
    · simp [sessStep, hbuf]
  | bpWait c rest =>
    by_cases hcan : env.cancel k
    · simp [sessStep, hcan]
    · simp [sessStep, hcan]
  | done bb => simp [sessStep]

/-- Only the start phase emits a metadata message. -/
theorem sessNoMetadataLater (env : SessEnv) (f : SendFile) (idx total k : Nat)
    (h : (sessState env f idx total k).phase ≠ .start) :
    ∀ n s i t, SEvent.metadata n s i t ∉ sessEvents env f idx total k := by
  intro n s i t hmem
  rcases hs : sessState env f idx total k with ⟨ph, b⟩
  rw [sessEvents_eq, hs] at hmem
  rw [hs] at h
  cases ph with
  | start => exact h rfl
  | loopTop rest =>
    by_cases hcan : env.cancel k
    · simp [sessStep, hcan] at hmem
    · cases rest <;> simp [sessStep, hcan] at hmem
  | bpCheck c rest =>
    by_cases hbuf : HWM < b - env.drain k
    · simp [sessStep, hbuf] at hmem
    · simp [sessStep, hbuf] at hmem
  | bpWait c rest =>
    by_cases hcan : env.cancel k
    · simp [sessStep, hcan] at hmem
    · simp [sessStep, hcan] at hmem
  | done bb => simp [sessStep] at hmem

/-- Claim C5: for every file sent, the first step (and only the first
step) emits exactly one metadata message, carrying the file's name, its
byte size, its zero-based queue index and the queue length, and no binary
data is sent at that step, so the metadata precedes all file data; the
receiver-side parse (modelled from the spec) accepts the full message
with all four fields, and a legacy message carrying only `name` parses as
a valid metadata message with the optional fields absent. -/
theorem lanC5 : ∀ (env : SessEnv) (f : SendFile) (idx total : Nat),
    sessEvents env f idx total 0 = [.metadata f.name f.size idx total]
    ∧ (∀ k n s i t, SEvent.metadata n s i t ∈ sessEvents env f idx total k →
        k = 0 ∧ n = f.name ∧ s = f.size ∧ i = idx ∧ t = total)
    ∧ (∀ c, SEvent.sendData c ∉ sessEvents env f idx total 0)
    ∧ parseMetadata (senderWire f idx total)
      = some ⟨f.name, some f.size, some idx, some total⟩
    ∧ parseMetadata [("name", .str f.name)] = some ⟨f.name, none, none, none⟩ := by
  intro env f idx total
  have h0 : sessEvents env f idx total 0 = [.metadata f.name f.size idx total] := rfl
  refine ⟨h0, ?_, ?_, rfl, rfl⟩
  · intro k n s i t hmem
    cases k with
    | zero =>
      rw [h0] at hmem
      simp at hmem
      exact ⟨rfl, hmem.1, hmem.2.1, hmem.2.2.1, hmem.2.2.2⟩
    | succ k =>
      exact absurd hmem
        (sessNoMetadataLater env f idx total (k + 1)
          (sessPhase_ne_start env f idx total k) n s i t)
  · intro c hc
    rw [h0] at hc
    simp at hc

/-- Claim C5 witness: the concrete first step of a session for the file
`x.txt` of 5 bytes, sent as item 0 of 1, emits that metadata message, and
the theorem pins its fields. -/
theorem lanC5_witness :
    SEvent.metadata "x.txt" 5 0 1
      ∈ sessEvents ⟨fun _ => false, fun _ => 0⟩ ⟨"x.txt", 5, [5]⟩ 0 1 0
    ∧ (0 = 0 ∧ "x.txt" = "x.txt" ∧ 5 = 5 ∧ 0 = 0 ∧ 1 = 1) :=
  ⟨by decide,
    (lanC5 ⟨fun _ => false, fun _ => 0⟩ ⟨"x.txt", 5, [5]⟩ 0 1).2.1 0 "x.txt" 5 0 1 (by decide)⟩

/-- Claim C6: on a `chat-connected` notification carrying peer `p`: when
`p` is the active chat peer and the chat is considered disconnected, the
handler schedules exactly one outbound `connect_to_chat` back to `p`
after the fixed 300 ms delay and marks the chat connected; when there is
no active chat peer, it auto-accepts — makes `p` the active peer, clears
the message history, schedules the same delayed outbound connection, and
marks the chat connected — in both cases with no operator action. -/
theorem lanC6 : ∀ (st : ChatState) (p : String),
    (st.activeChatIp = some p → st.chatConnected = false →
      (onChatConnected st p).2 = [(p, 300)]
        ∧ (onChatConnected st p).1.chatConnected = true
        ∧ (onChatConnected st p).1.activeChatIp = some p)
    ∧ (st.activeChatIp = none →
      (onChatConnected st p).1.activeChatIp = some p
        ∧ (onChatConnected st p).1.messages = []
        ∧ (onChatConnected st p).2 = [(p, 300)]
        ∧ (onChatConnected st p).1.chatConnected = true) := by
  intro st p
  constructor
  · intro hact hconn
    simp [onChatConnected, hact, hconn, chatReconnectDelayMs]
  · intro hact
    simp [onChatConnected, hact, chatReconnectDelayMs]

/-- Claim C6 witness: a node with active peer `10.0.0.5` and a dropped
connection schedules the delayed reverse connection; a node with no
active peer auto-accepts `10.0.0.7`. -/
theorem lanC6_witness :
    (onChatConnected ⟨some "10.0.0.5", false, none, ["hi"]⟩ "10.0.0.5").2 = [("10.0.0.5", 300)]
    ∧ (onChatConnected ⟨none, false, none, ["old"]⟩ "10.0.0.7").1.activeChatIp = some "10.0.0.7"
    ∧ (onChatConnected ⟨none, false, none, ["old"]⟩ "10.0.0.7").1.messages = [] :=
  ⟨((lanC6 ⟨some "10.0.0.5", false, none, ["hi"]⟩ "10.0.0.5").1 rfl rfl).1,
    ((lanC6 ⟨none, false, none, ["old"]⟩ "10.0.0.7").2 rfl).1,
    ((lanC6 ⟨none, false, none, ["old"]⟩ "10.0.0.7").2 rfl).2.1⟩

/-- Claim C8: receiving clipboard content updates the last-known hash
strictly before writing the content to the system clipboard; as a
consequence a poll tick run right after the receive observes a hash equal
to the last-known hash and broadcasts nothing, and even a poll tick
interleaved anywhere after the hash update never rebroadcasts the
received content (the anti-echo invariant, preserved exactly as
update-before-apply: after the first primitive action only the hash has
changed). -/
theorem lanC8 : ∀ (hash : String → String) (st : ClipNode) (X : String),
    (((receiveActions hash X).take 1).foldl applyAction st
      = { st with lastKnownHash := hash X })
    ∧ (pollClip hash (receiveClip hash X st)).2 = []
    ∧ (∀ k, 1 ≤ k →
        X ∉ (pollClip hash (((receiveActions hash X).take k).foldl applyAction st)).2) := by
  intro hash st X
  refine ⟨rfl, ?_, ?_⟩
  · have hrec : receiveClip hash X st = ⟨hash X, X⟩ := rfl
    rw [hrec]
    simp [pollClip]
  · intro k hk hmem
    rcases k with _ | k
    · omega
    · rcases k with _ | k
      · -- poll between the hash update and the clipboard write
        have h1 : ((receiveActions hash X).take 1).foldl applyAction st
            = { st with lastKnownHash := hash X } := rfl
        rw [h1] at hmem
        by_cases hh : hash st.clipboard = hash X
        · simp [pollClip, hh] at hmem
        · simp [pollClip, hh] at hmem
          subst hmem
          exact hh rfl
      · -- the full receive already ran
        have h2 : ((receiveActions hash X).take (k + 2)) = receiveActions hash X := by
          simp [receiveActions]
        rw [h2] at hmem
        have h3 : (receiveActions hash X).foldl applyAction st = ⟨hash X, X⟩ := rfl
        rw [h3] at hmem
        simp [pollClip] at hmem

/-- Claim C8 witness: with a concrete digest and a node holding `"old"`, a
poll interleaved right after the hash update does not rebroadcast the
received content `"new"`. -/
theorem lanC8_witness :
    "new" ∉ (pollClip (fun s => s)
      (((receiveActions (fun s => s) "new").take 1).foldl applyAction
        ⟨"h0", "old"⟩)).2 :=
  (lanC8 (fun s => s) ⟨"h0", "old"⟩ "new").2.2 1 (Nat.le_refl 1)

/-- `writeChunk` never changes the handle counter. -/
theorem writeChunk_nextHandle (h : Nat) (d : List Nat) (e : Option String)
    (st : StorageState) : (writeChunk h d e st).1.nextHandle = st.nextHandle := by
  unfold writeChunk
  split
  · rfl
  · split <;> rfl

/-- `closeWriter` never changes the handle counter. -/
theorem closeWriter_nextHandle (h : Nat) (e : Option String) (st : StorageState) :
    (closeWriter h e st).1.nextHandle = st.nextHandle := by
  unfold closeWriter
  split
  · rfl
  · split <;> rfl

/-- The handles returned by a command sequence are exactly the consecutive
counter values from the starting counter, and the counter advances by the
number of successful opens. -/
theorem runOps_handles : ∀ (ops : List StorageOp) (st : StorageState),
    (runOps ops st).2 = List.range' st.nextHandle (countSucc ops)
    ∧ (runOps ops st).1.nextHandle = st.nextHandle + countSucc ops := by
  intro ops
  induction ops with
  | nil => intro st; exact ⟨rfl, rfl⟩
  | cons op ops ih =>
    intro st
    cases op with
    | openW o uri name =>
      cases o with
      | createFails =>
        simpa only [runOps, openWriter, countSucc, List.nil_append] using ih st
      | streamFails =>
        simpa only [runOps, openWriter, countSucc, List.nil_append] using ih st
      | throws m =>
        simpa only [runOps, openWriter, countSucc, List.nil_append] using ih st
      | succeeds =>
        constructor
        · simp only [runOps, openWriter, countSucc, List.singleton_append]
          rw [(ih _).1, List.range'_succ]
        · simp only [runOps, openWriter, countSucc]
          rw [(ih _).2]
          show st.nextHandle + 1 + countSucc ops = st.nextHandle + (countSucc ops + 1)
          omega
    | writeW hh d e =>
      constructor
      · simp only [runOps, countSucc, List.nil_append]
        rw [(ih _).1, writeChunk_nextHandle]
      · simp only [runOps, countSucc]
        rw [(ih _).2, writeChunk_nextHandle]
    | closeW hh e =>
      constructor
      · simp only [runOps, countSucc, List.nil_append]
        rw [(ih _).1, closeWriter_nextHandle]
      · simp only [runOps, countSucc]
        rw [(ih _).2, closeWriter_nextHandle]

/-- Updating values in place preserves the key list. -/
theorem map_key_update (l : List (Nat × List Nat)) (h : Nat) (v : List Nat) :
    ((l.map (fun e => if e.1 = h then (e.1, v) else e)).map (fun e => e.1))
      = l.map (fun e => e.1) := by
  induction l with
  | nil => rfl
  | cons a l ih =>
    simp only [List.map_cons, ih]
    by_cases ha : a.1 = h <;> simp [ha]

/-- `openWriter` preserves the registry invariant. -/
theorem keysOk_open (o : OpenOutcome) (uri name : String) (st : StorageState)
    (h : keysOk st) : keysOk (openWriter o uri name st).1 := by
  cases o with
  | createFails => exact h
  | streamFails => exact h
  | throws m => exact h
  | succeeds =>
    obtain ⟨hnd, hlt⟩ := h
    refine ⟨?_, ?_⟩
    · show (((st.nextHandle, ([] : List Nat)) :: st.streams).map (fun e => e.1)).Nodup
      rw [List.map_cons]
      refine List.nodup_cons.mpr ⟨?_, hnd⟩
      intro hmem
      rw [List.mem_map] at hmem
      obtain ⟨e, he, heq⟩ := hmem
      have := hlt e he
      omega
    · intro e he
      show e.1 < st.nextHandle + 1
      rcases List.mem_cons.mp he with he1 | he1
      · subst he1; exact Nat.lt_succ_self _
      · exact Nat.lt_trans (hlt e he1) (Nat.lt_succ_self _)

/-- `writeChunk` preserves the registry invariant. -/
theorem keysOk_write (h : Nat) (d : List Nat) (e : Option String) (st : StorageState)
    (hk : keysOk st) : keysOk (writeChunk h d e st).1 := by
  unfold writeChunk
  split
  · exact hk
  · split
    · exact hk
    · obtain ⟨hnd, hlt⟩ := hk
      refine ⟨?_, ?_⟩
      · rw [map_key_update]
        exact hnd
      · intro e' he'
        rw [List.mem_map] at he'
        obtain ⟨a, ha, hae⟩ := he'
        have hlt' := hlt a ha
        by_cases hah : a.1 = h
        · rw [if_pos hah] at hae
          subst hae
          exact hlt'
        · rw [if_neg hah] at hae
          subst hae
          exact hlt'

/-- `closeWriter` always leaves the streams filtered by the closed handle. -/
theorem closeWriter_streams (h : Nat) (e : Option String) (st : StorageState) :
    (closeWriter h e st).1.streams = st.streams.filter (fun e => e.1 != h) := by
  unfold closeWriter
  split
  · rfl
  · split <;> rfl

/-- `closeWriter` preserves the registry invariant. -/
theorem keysOk_close (h : Nat) (e : Option String) (st : StorageState)
    (hk : keysOk st) : keysOk (closeWriter h e st).1 := by
  obtain ⟨hnd, hlt⟩ := hk
  refine ⟨?_, ?_⟩
  · rw [closeWriter_streams]
    exact hnd.sublist (List.Sublist.map _ (List.filter_sublist _))
  · intro e' he'
    rw [closeWriter_streams] at he'
    rw [closeWriter_nextHandle]
    exact hlt e' (List.mem_of_mem_filter he')

/-- Every reachable registry state satisfies the invariant. -/
theorem keysOk_run : ∀ (ops : List StorageOp) (st : StorageState),
    keysOk st → keysOk (runOps ops st).1 := by
  intro ops
  induction ops with
  | nil => intro st h; exact h
  | cons op ops ih =>
    intro st h
    cases op with
    | openW o uri name => exact ih _ (keysOk_open o uri name st h)
    | writeW hh d e => exact ih _ (keysOk_write hh d e st h)
    | closeW hh e => exact ih _ (keysOk_close hh e st h)

/-- Claim C7: from the initial plugin state, the handles returned by
successful `openWriter` calls are exactly the consecutive values
`1, 2, …` — each strictly greater than every earlier one — pairwise
increasing; in every reachable state the simultaneously open write
streams carry pairwise distinct handles; and a failed `openWriter`
(creation failure, stream failure, or exception) leaves the state — in
particular the counter and the registries — completely unchanged. -/
theorem lanC7 : ∀ ops : List StorageOp,
    (runOps ops initStorage).2 = List.range' 1 (countSucc ops)
    ∧ ((runOps ops initStorage).2).Pairwise (· < ·)
    ∧ ((runOps ops initStorage).1.streams.map (fun e => e.1)).Nodup
    ∧ (∀ st uri name,
        openWriter .createFails uri name st = (st, .error "Failed to create document"))
    ∧ (∀ st uri name,
        openWriter .streamFails uri name st = (st, .error "Failed to open output stream"))
    ∧ (∀ st uri name m,
        openWriter (.throws m) uri name st = (st, .error ("Error: " ++ m))) := by
  intro ops
  refine ⟨(runOps_handles ops initStorage).1, ?_,
    (keysOk_run ops initStorage ⟨List.nodup_nil, by simp [initStorage]⟩).1,
    fun _ _ _ => rfl, fun _ _ _ => rfl, fun _ _ _ _ => rfl⟩
  rw [(runOps_handles ops initStorage).1]
  exact List.pairwise_lt_range' 1 (countSucc ops)

/-- `writeChunk` on an unregistered handle rejects and changes nothing. -/
theorem writeChunk_absent (h : Nat) (d : List Nat) (e : Option String)
    (st : StorageState) (hn : lookupStream h st = none) :
    writeChunk h d e st = (st, .error "Invalid handle") := by
  simp only [writeChunk, hn]

/-- `closeWriter` on an unregistered handle rejects and leaves the open
streams unchanged. -/
theorem closeWriter_absent (h : Nat) (e : Option String) (st : StorageState)
    (hn : lookupStream h st = none) :
    (closeWriter h e st).1.streams = st.streams
    ∧ (closeWriter h e st).2 = .error "Invalid handle" := by
  have hf : st.streams.find? (fun e => e.1 == h) = none := Option.map_eq_none'.mp hn
  have hfilter : st.streams.filter (fun e => e.1 != h) = st.streams := by
    rw [List.filter_eq_self]
    intro a ha
    have hne := List.find?_eq_none.mp hf a ha
    cases hbe : (a.1 == h) with
    | false => simp [bne, hbe]
    | true => exact absurd hbe hne
  refine ⟨?_, ?_⟩
  · rw [closeWriter_streams, hfilter]
  · simp only [closeWriter, hn]

/-- After any `closeWriter` call the handle is no longer registered. -/
theorem closeWriter_removes (h : Nat) (e : Option String) (st : StorageState) :
    lookupStream h (closeWriter h e st).1 = none := by
  have hfind : ((closeWriter h e st).1.streams).find? (fun e => e.1 == h) = none := by
    rw [closeWriter_streams, List.find?_eq_none]
    intro a ha
    have hbne := (List.mem_filter.mp ha).2
    simp only [bne, Bool.not_eq_true'] at hbne
    simp [hbne]
  simp [lookupStream, hfind]

/-- Claim C9: calling `writeChunk` or `closeWriter` with a handle that is
not currently registered rejects with `Invalid handle` and leaves the set
of open write streams and their contents unchanged; after a `closeWriter`
call on a registered handle — whether the flush/close succeeds or throws
— the handle is removed from the registry, so a second `closeWriter` on
the same handle always rejects with `Invalid handle` and changes nothing
further. -/
theorem lanC9 : ∀ (st : StorageState) (h : Nat) (data : List Nat) (exc : Option String),
    (lookupStream h st = none →
      writeChunk h data exc st = (st, .error "Invalid handle")
      ∧ (closeWriter h exc st).1.streams = st.streams
      ∧ (closeWriter h exc st).2 = .error "Invalid handle")
    ∧ (∀ c, lookupStream h st = some c →
      lookupStream h (closeWriter h exc st).1 = none
      ∧ (∀ exc',
          (closeWriter h exc' (closeWriter h exc st).1).1.streams
            = (closeWriter h exc st).1.streams
          ∧ (closeWriter h exc' (closeWriter h exc st).1).2
            = .error "Invalid handle")) := by
  intro st h data exc
  constructor
  · intro hn
    exact ⟨writeChunk_absent h data exc st hn, (closeWriter_absent h exc st hn).1,
      (closeWriter_absent h exc st hn).2⟩
  · intro c _
    refine ⟨closeWriter_removes h exc st, ?_⟩
    intro exc'
    exact closeWriter_absent h exc' _ (closeWriter_removes h exc st)

/-- Claim C9 witness: in a concrete state holding handle 1, closing handle
1 removes it, and writing to the unregistered handle 5 rejects without
changing the state. -/
theorem lanC9_witness :
    lookupStream 1 ⟨2, [(1, [7])], [(1, "u")]⟩ = some [7]
    ∧ lookupStream 1 (closeWriter 1 none ⟨2, [(1, [7])], [(1, "u")]⟩).1 = none
    ∧ writeChunk 5 [3] none ⟨2, [(1, [7])], [(1, "u")]⟩
      = (⟨2, [(1, [7])], [(1, "u")]⟩, .error "Invalid handle") :=
  ⟨rfl, ((lanC9 ⟨2, [(1, [7])], [(1, "u")]⟩ 1 [] none).2 [7] rfl).1,
    ((lanC9 ⟨2, [(1, [7])], [(1, "u")]⟩ 5 [3] none).1 rfl).1⟩

/-- With the flag reset at entry, the base value contributes nothing to
later checkpoints. -/
theorem flagAtCheck_false (env : QueueEnv) (i : Nat) :
    flagAtCheck false env i = (List.range i).any env.req := by
  simp [flagAtCheck]

/-- If every round before `i` was clean and the flag is set at checkpoint
`i`, the queue loop stops at round `i`. -/
theorem runQ_stop_cancel : ∀ (fuel i0 i : Nat) (env : QueueEnv),
    i0 ≤ i → i < i0 + fuel →
    (∀ j, i0 ≤ j → j < i →
      flagAtCheck false env j = false ∧ env.res j = FileSendResult.ok) →
    flagAtCheck false env i = true →
    (runQ false env i0 fuel).2.2 = i := by
  intro fuel
  induction fuel with
  | zero => intro i0 i env hle hlt _ _; omega
  | succ fuel ih =>
    intro i0 i env hle hlt hclean hflag
    by_cases hi0 : i0 = i
    · subst hi0
      simp [runQ, hflag]
    · have hlt0 : i0 < i := Nat.lt_of_le_of_ne hle hi0
      obtain ⟨hf0, hr0⟩ := hclean i0 (Nat.le_refl i0) hlt0
      have heq : (runQ false env i0 (fuel + 1)).2.2
          = (runQ false env (i0 + 1) fuel).2.2 := by
        simp [runQ, hf0, hr0]
      rw [heq]
      exact ih (i0 + 1) i env hlt0 (by omega)
        (fun j hj1 hj2 => hclean j (by omega) hj2) hflag

/-- If every round before `i` was clean, the flag is clear at checkpoint
`i`, and session `i` fails, the queue loop stops after round `i`. -/
theorem runQ_stop_err : ∀ (fuel i0 i : Nat) (env : QueueEnv) (m : String),
    i0 ≤ i → i < i0 + fuel →
    (∀ j, i0 ≤ j → j < i →
      flagAtCheck false env j = false ∧ env.res j = FileSendResult.ok) →
    flagAtCheck false env i = false → env.res i = .err m →
    (runQ false env i0 fuel).2.2 = i + 1 := by
  intro fuel
  induction fuel with
  | zero => intro i0 i env m hle hlt _ _ _; omega
  | succ fuel ih =>
    intro i0 i env m hle hlt hclean hflag hres
    by_cases hi0 : i0 = i
    · subst hi0
      simp [runQ, hflag, hres]
    · have hlt0 : i0 < i := Nat.lt_of_le_of_ne hle hi0
      obtain ⟨hf0, hr0⟩ := hclean i0 (Nat.le_refl i0) hlt0
      have heq : (runQ false env i0 (fuel + 1)).2.2
          = (runQ false env (i0 + 1) fuel).2.2 := by
        simp [runQ, hf0, hr0]
      rw [heq]
      exact ih (i0 + 1) i env m hlt0 (by omega)
        (fun j hj1 hj2 => hclean j (by omega) hj2) hflag hres

/-- Claim C10: the sender-side cancel flag is scoped to a single send
operation — for a non-empty queue, `sendFiles` behaves identically
whatever the flag's value at entry (the entry reset), and it leaves the
flag cleared (the exit reset), so a cancellation requested during or
after one operation never makes a later operation start cancelled; and
within one operation, once the flag is observed set — at the checkpoint
before a file, or inside a session that then fails with
`Cancelled by user` while a request is pending — the final reported
status is idle (cancelled), never success. -/
theorem lanC10 : ∀ (f0 : Bool) (env : QueueEnv) (n : Nat),
    (0 < n →
      sendFilesModel f0 env n = sendFilesModel false env n
      ∧ (sendFilesModel f0 env n).2.2 = false)
    ∧ (∀ i, i < n →
        (∀ j, j < i → flagAtCheck false env j = false ∧ env.res j = FileSendResult.ok) →
        flagAtCheck false env i = true →
        (sendFilesModel f0 env n).2.1 = some .idle)
    ∧ (∀ i m, i < n →
        (∀ j, j < i → flagAtCheck false env j = false ∧ env.res j = FileSendResult.ok) →
        flagAtCheck false env i = false → env.res i = .err m →
        (∃ j, j ≤ i ∧ env.req j = true) →
        (sendFilesModel f0 env n).2.1 = some .idle) := by
  intro f0 env n
  refine ⟨?_, ?_, ?_⟩
  · intro hn
    have hne : ¬ (n = 0) := by omega
    exact ⟨by simp [sendFilesModel, hne], by simp [sendFilesModel, hne]⟩
  · intro i hi hclean hflag
    have hne : ¬ (n = 0) := by omega
    have hk : (runQ false env 0 n).2.2 = i :=
      runQ_stop_cancel n 0 i env (Nat.zero_le i) (by omega)
        (fun j _ hj => hclean j hj) hflag
    have hwas : ((List.range (runQ false env 0 n).2.2).any env.req) = true := by
      rw [hk]
      rw [flagAtCheck_false] at hflag
      exact hflag
    simp [sendFilesModel, hne, hwas]
  · intro i m hi hclean hflag hres hex
    obtain ⟨j, hj, hreq⟩ := hex
    have hne : ¬ (n = 0) := by omega
    have hk : (runQ false env 0 n).2.2 = i + 1 :=
      runQ_stop_err n 0 i env m (Nat.zero_le i) (by omega)
        (fun j' _ hj' => hclean j' hj') hflag hres
    have hwas : ((List.range (runQ false env 0 n).2.2).any env.req) = true := by
      rw [hk, List.any_eq_true]
      exact ⟨j, List.mem_range.mpr (by omega), hreq⟩
    simp [sendFilesModel, hne, hwas]

/-- Claim C10 witness: with a cancel request during round 0 of a two-file
queue whose sessions succeed, the checkpoint before file 1 observes the
flag and the operation reports idle, even though the flag was set at
entry of the call. -/
theorem lanC10_witness :
    flagAtCheck false ⟨fun j => j == 0, fun _ => .ok⟩ 1 = true
    ∧ (sendFilesModel true ⟨fun j => j == 0, fun _ => .ok⟩ 2).2.1 = some .idle :=
  ⟨by decide,
    (lanC10 true ⟨fun j => j == 0, fun _ => .ok⟩ 2).2.1 1 (by decide)
      (fun j hj => by
        have hj0 : j = 0 := by omega
        subst hj0
        exact ⟨by decide, rfl⟩)
      (by decide)⟩

end LanTransfer
